import Mathlib

/-!
# Quiz9: two timed quiz runners

A shallow embedding of the two Go programs of the repository,
`students/zabftft/main.go` and `students/Soumil-Bhattacharya/main.go`,
followed by theorems about the embedded functions.

Conventions of the embedding.

* A Go `string` is a list of Unicode scalar values (`GoString`), that is, a
  valid UTF-8 string; a slice is a `List`.
* The functions of the Go standard library that the programs call
  (`strings.TrimSpace`, `strings.ToLower`, `strings.ToUpper`,
  `strings.Contains`) are transcribed from the standard library.  The case
  mapping of the runes above `unicode.MaxASCII` is a table of the standard
  library; it is a parameter (`CaseRanges`).
* A run-time panic (index out of range) is an explicit result.
* The counters (`totalQuestions`, `correctAnswers`, `correct`) are Go `int`s
  that start at zero and are only incremented, at most once per element of a
  slice; they cannot overflow and are natural numbers here.
* Blocking reads, the timer and the channels are modelled by an explicit
  event trace: every event is one completed `select` case or one completed
  read, in the order in which the control loop observes them.
-/

namespace Quiz9

/-- A Go string, as the sequence of its runes. -/
abbrev GoString := List Char

/-- A Go run-time panic. -/
inductive Panic where
  /-- The panic `index out of range [index] with length length`. -/
  | indexOutOfRange (index length : Nat)
  deriving DecidableEq, Repr

/-! ## The standard library functions used by the programs -/

/-- Go `unicode.IsSpace`: the runes with the Unicode White_Space property. -/
def isSpace (c : Char) : Bool :=
  let n := c.toNat
  n == 0x09 || n == 0x0A || n == 0x0B || n == 0x0C || n == 0x0D || n == 0x20 ||
  n == 0x85 || n == 0xA0 || n == 0x1680 || (0x2000 ≤ n && n ≤ 0x200A) ||
  n == 0x2028 || n == 0x2029 || n == 0x202F || n == 0x205F || n == 0x3000

/-- Go `strings.TrimSpace`: the string without its leading and trailing white space. -/
def TrimSpace (s : GoString) : GoString :=
  ((s.dropWhile isSpace).reverse.dropWhile isSpace).reverse

/-- The case mapping of the runes above `unicode.MaxASCII`
(Go `unicode.To(unicode.LowerCase, r)` and `unicode.To(unicode.UpperCase, r)`),
a table of the Go standard library. -/
structure CaseRanges where
  /-- The lower case mapping of a rune above `MaxASCII`. -/
  lower : Char → Char
  /-- The upper case mapping of a rune above `MaxASCII`. -/
  upper : Char → Char

/-- The table that maps every rune above `MaxASCII` to itself. -/
def CaseRanges.trivial : CaseRanges := ⟨fun c => c, fun c => c⟩

/-- Go `unicode.ToLower`. -/
def unicodeToLower (tbl : CaseRanges) (r : Char) : Char :=
  if r.toNat ≤ 0x7F then
    if 'A'.toNat ≤ r.toNat ∧ r.toNat ≤ 'Z'.toNat then Char.ofNat (r.toNat + ('a'.toNat - 'A'.toNat))
    else r
  else tbl.lower r

/-- Go `unicode.ToUpper`. -/
def unicodeToUpper (tbl : CaseRanges) (r : Char) : Char :=
  if r.toNat ≤ 0x7F then
    if 'a'.toNat ≤ r.toNat ∧ r.toNat ≤ 'z'.toNat then Char.ofNat (r.toNat - ('a'.toNat - 'A'.toNat))
    else r
  else tbl.upper r

/-- Go `strings.ToLower`: every rune mapped by `unicode.ToLower`. -/
def ToLower (tbl : CaseRanges) (s : GoString) : GoString := s.map (unicodeToLower tbl)

/-- Go `strings.ToUpper`: every rune mapped by `unicode.ToUpper`. -/
def ToUpper (tbl : CaseRanges) (s : GoString) : GoString := s.map (unicodeToUpper tbl)

/-- Go `strings.Contains`: `substr` occurs in `s` as a contiguous block. -/
def Contains (s substr : GoString) : Bool := decide (substr <:+: s)

/-- The assignment `data[i], data[j] = data[j], data[i]` on a slice: both
elements are read (a panic when an index is out of range, `none`), then both
are written. -/
def swapAt {α : Type} (data : List α) (i j : Nat) : Option (List α) :=
  match data[i]?, data[j]? with
  | some a, some b => some ((data.set i b).set j a)
  | _, _ => none

/-! ## students/zabftft/main.go -/

namespace zabftft

/-- The two error values of the program. -/
inductive Err where
  | ErrIncorrectFileFormat
  | ErrTimeLimitIsNegative
  deriving DecidableEq, Repr

/-- The function `validateFlags`; `none` is the `nil` error. -/
def validateFlags (fileName : GoString) (timeLimit : Int) (_shuffle : Bool) : Option Err :=
  if !Contains fileName ".csv".toList then
    some Err.ErrIncorrectFileFormat
  else if timeLimit ≤ 0 then
    some Err.ErrTimeLimitIsNegative
  else
    none

/-- The function `shuffleQuestions`.  `rand.Shuffle(n, swap)` calls `swap(i, j)`
for a sequence of index pairs of its choice, `swaps`; the callback exchanges
`fileContent[i]` and `fileContent[j]`. -/
def shuffleQuestions {α : Type} (swaps : List (Nat × Nat)) (fileContent : List α) :
    Option (List α) :=
  swaps.foldlM (fun content p => swapAt content p.1 p.2) fileContent

/-- The function `cleanAnswer`. -/
def cleanAnswer (tbl : CaseRanges) (answer : GoString) : GoString :=
  TrimSpace (ToLower tbl answer)

/-- The struct `gameResult`; `err = true` stands for a non-nil `err`. -/
structure gameResult where
  total : Nat
  correct : Nat
  err : Bool
  deriving DecidableEq, Repr

/-- What the program writes to standard output. -/
inductive Output where
  /-- The lines `Question #number: text` and `Your answer: `. -/
  | question (number : Nat) (text : GoString)
  /-- The line `Total Questions: total. Correct Answers: correct`. -/
  | tally (total correct : Nat)
  deriving DecidableEq, Repr

/-- Where the goroutine `askQuestions` stands. -/
inductive Pc where
  /-- Blocked in `r.ReadString` for the question whose answer is `correctAnswer`. -/
  | awaitAnswer (correctAnswer : GoString)
  /-- The loop was left: the range is exhausted, or `break` after a read error. -/
  | returned
  /-- The goroutine panicked. -/
  | panicked (p : Panic)
  deriving DecidableEq, Repr

/-- The state of the goroutine `askQuestions`: the range index, its two
counters, what it printed and what it sent on `gc`, in order. -/
structure AskState where
  i : Nat
  totalQuestions : Nat
  correctAnswers : Nat
  pc : Pc
  printed : List Output
  sent : List gameResult
  deriving DecidableEq, Repr

/-- The head of the loop body of `askQuestions` for the range index `st.i`:
the next row is taken, its fields 0 and 1 are read, the question is printed
and the goroutine blocks in `ReadString`. -/
def askHead (data : List (List GoString)) (st : AskState) : AskState :=
  match data[st.i]? with
  | none => { st with pc := Pc.returned }
  | some question =>
    match question[0]?, question[1]? with
    | some quizQuestion, some correctAnswer =>
      { st with pc := Pc.awaitAnswer correctAnswer,
                printed := st.printed ++ [Output.question (st.i + 1) quizQuestion] }
    | some _, none => { st with pc := Pc.panicked (Panic.indexOutOfRange 1 question.length) }
    | none, _ => { st with pc := Pc.panicked (Panic.indexOutOfRange 0 question.length) }

/-- The rest of the loop body of `askQuestions`, once `ReadString` returned:
`read = none` is a non-nil error, `read = some answer` a line.  The second
component is the value sent on `gc`, if any. -/
def askRead (tbl : CaseRanges) (data : List (List GoString)) (st : AskState)
    (read : Option GoString) : AskState × Option gameResult :=
  match st.pc with
  | Pc.awaitAnswer correctAnswer =>
    match read with
    | none =>
      let r : gameResult := { total := 0, correct := 0, err := true }
      ({ st with pc := Pc.returned, sent := st.sent ++ [r] }, some r)
    | some answer =>
      let answer := cleanAnswer tbl answer
      let correctAnswers := if answer = correctAnswer then st.correctAnswers + 1 else st.correctAnswers
      let totalQuestions := st.totalQuestions + 1
      let r : gameResult := { total := totalQuestions, correct := correctAnswers, err := false }
      (askHead data { st with i := st.i + 1, totalQuestions := totalQuestions,
                              correctAnswers := correctAnswers, sent := st.sent ++ [r] }, some r)
  | _ => (st, none)

/-- The goroutine at its start: both counters are zero and the loop is entered. -/
def askStart (data : List (List GoString)) : AskState :=
  askHead data { i := 0, totalQuestions := 0, correctAnswers := 0, pc := Pc.returned,
                 printed := [], sent := [] }

/-- The function `askQuestions` run on the results of its successive reads. -/
def askQuestions (tbl : CaseRanges) (data : List (List GoString))
    (reads : List (Option GoString)) : AskState :=
  reads.foldl (fun st read => (askRead tbl data st read).1) (askStart data)

/-- Why the quiz stopped. -/
inductive Reason where
  | TimeExpired
  | Exhausted
  | InputError
  | Crashed (p : Panic)
  deriving DecidableEq, Repr

/-- The state of the quiz. -/
inductive Status where
  | Running
  | Stopped (reason : Reason)
  deriving DecidableEq, Repr

/-- What the control loop of `runQuiz` observes after the timer was created. -/
inductive Event where
  /-- `ReadString` returned the line `s` (its terminator included). -/
  | line (s : GoString)
  /-- `ReadString` returned a non-nil error. -/
  | readErr
  /-- The timer fired. -/
  | deadline
  deriving DecidableEq, Repr

/-- The state of `runQuiz`: the goroutine, the variable `result`, the status
and what `runQuiz` itself printed. -/
structure Quiz where
  ask : AskState
  result : gameResult
  status : Status
  report : List Output
  deriving DecidableEq, Repr

/-- The function `runQuiz` after `entryPrompt` returned: the timer is created,
the goroutine is started and `result` is the zero value. -/
def runQuizStart (data : List (List GoString)) : Quiz :=
  let ask := askStart data
  { ask := ask,
    result := { total := 0, correct := 0, err := false },
    status := match ask.pc with
      | Pc.panicked p => Status.Stopped (Reason.Crashed p)
      | _ => Status.Running,
    report := [] }

/-- One iteration of the `for { select { ... } }` loop of `runQuiz`. -/
def runQuizStep (tbl : CaseRanges) (data : List (List GoString)) (q : Quiz) (ev : Event) : Quiz :=
  match q.status with
  | Status.Stopped _ => q
  | Status.Running =>
    match ev with
    | Event.deadline =>
      { q with status := Status.Stopped Reason.TimeExpired,
               report := q.report ++ [Output.tally q.result.total q.result.correct] }
    | Event.readErr =>
      match askRead tbl data q.ask none with
      | (ask, some r) =>
        { q with ask := ask, result := r,
                 status := if r.err then Status.Stopped Reason.InputError else Status.Running }
      | (_, none) => q
    | Event.line s =>
      match askRead tbl data q.ask (some s) with
      | (ask, some r) =>
        { q with ask := ask, result := r,
                 status := match ask.pc with
                   | Pc.panicked p => Status.Stopped (Reason.Crashed p)
                   | _ => if r.err then Status.Stopped Reason.InputError else Status.Running }
      | (_, none) => q

/-- The function `runQuiz` on a trace of events. -/
def runQuiz (tbl : CaseRanges) (data : List (List GoString)) (trace : List Event) : Quiz :=
  trace.foldl (runQuizStep tbl data) (runQuizStart data)

end zabftft

/-! ## students/Soumil-Bhattacharya/main.go -/

namespace Soumil

/-- The struct `problem`. -/
structure problem where
  q : GoString
  a : GoString
  deriving DecidableEq, Repr

/-- The loop of `Shuffle` from index `i` on, with `k` iterations left
(`k = len(data) - i`, the slice keeps its length); `draw i` is the value of
`random.Intn(i + 1)` in iteration `i`. -/
def shuffleFrom {α : Type} (draw : Nat → Nat) : Nat → Nat → List α → Option (List α)
  | 0, _, data => some data
  | k + 1, i, data => (swapAt data i (draw i)).bind (shuffleFrom draw k (i + 1))

/-- The function `Shuffle`; `none` is a panic. -/
def Shuffle {α : Type} (draw : Nat → Nat) (data : List α) : Option (List α) :=
  shuffleFrom draw data.length 0 data

/-- The function `parseLines`; `row` is the range variable `line`.  In the
composite literal the operand `line[1]` of the call `strings.TrimSpace` is
evaluated before `line[0]`, so a row with no field panics with index 1. -/
def parseLines : List (List GoString) → Except Panic (List problem)
  | [] => Except.ok []
  | row :: lines =>
    match row[1]?, row[0]? with
    | some a, some q =>
      match parseLines lines with
      | Except.ok res => Except.ok ({ q := q, a := TrimSpace a } :: res)
      | Except.error p => Except.error p
    | none, _ => Except.error (Panic.indexOutOfRange 1 row.length)
    | some _, none => Except.error (Panic.indexOutOfRange 0 row.length)

/-- What the program writes to standard output. -/
inductive Output where
  /-- The text `Problem #number: text = `. -/
  | problem (number : Nat) (text : GoString)
  /-- The line `You scored correct out of total`. -/
  | score (correct total : Nat)
  deriving DecidableEq, Repr

/-- Why the quiz stopped. -/
inductive Reason where
  | TimeExpired
  | Exhausted
  deriving DecidableEq, Repr

/-- The state of the quiz. -/
inductive Status where
  | Running
  | Stopped (reason : Reason)
  deriving DecidableEq, Repr

/-- What the `select` of the problem loop observes. -/
inductive Event where
  /-- The answer goroutine scanned `scanned` with `fmt.Scanf("%s\n", &answer)`. -/
  | answer (scanned : GoString)
  /-- The timer fired. -/
  | deadline
  deriving DecidableEq, Repr

/-- The state of `main` from the problem loop on: the range index, the
counter `correct`, the status and the output. -/
structure Loop where
  index : Nat
  correct : Nat
  status : Status
  out : List Output
  deriving DecidableEq, Repr

/-- The head of the problem loop for the range index `st.index`: the prompt is
printed and the `select` is entered; when the range is exhausted the loop is
left and the score is printed. -/
def loopHead (problems : List problem) (st : Loop) : Loop :=
  match problems[st.index]? with
  | none =>
    { st with status := Status.Stopped Reason.Exhausted,
              out := st.out ++ [Output.score st.correct problems.length] }
  | some problem =>
    { st with out := st.out ++ [Output.problem (st.index + 1) problem.q] }

/-- The problem loop at its start. -/
def loopStart (problems : List problem) : Loop :=
  loopHead problems { index := 0, correct := 0, status := Status.Running, out := [] }

/-- One `select` of the problem loop. -/
def loopStep (tbl : CaseRanges) (problems : List problem) (st : Loop) (ev : Event) : Loop :=
  match st.status with
  | Status.Stopped _ => st
  | Status.Running =>
    match problems[st.index]? with
    | none => st
    | some problem =>
      match ev with
      | Event.deadline =>
        { st with status := Status.Stopped Reason.TimeExpired,
                  out := st.out ++ [Output.score st.correct problems.length] }
      | Event.answer scanned =>
        let answer := ToUpper tbl (TrimSpace scanned)
        let correct := if problem.a = answer then st.correct + 1 else st.correct
        loopHead problems { st with index := st.index + 1, correct := correct }

/-- The problem loop and the final report of `main` on a trace of events. -/
def problemLoop (tbl : CaseRanges) (problems : List problem) (trace : List Event) : Loop :=
  trace.foldl (loopStep tbl problems) (loopStart problems)

end Soumil

/-! ## Notions used to state the properties -/

/-- The file name has the extension `.csv`: it ends in `.csv`. -/
def hasCsvExtension (fileName : GoString) : Prop := ".csv".toList <:+ fileName

/-- Two runes that are equal, or the upper case and the lower case form of
one letter of the basic Latin alphabet. -/
def sameLetter (c d : Char) : Prop :=
  c = d ∨
  ('A'.toNat ≤ c.toNat ∧ c.toNat ≤ 'Z'.toNat ∧ d.toNat = c.toNat + 32) ∨
  ('A'.toNat ≤ d.toNat ∧ d.toNat ≤ 'Z'.toNat ∧ c.toNat = d.toNat + 32)

/-- Two runes that the case mapping `fold` of a normalizer folds together:
the two case forms of a basic Latin letter (or equal runes), or any two runes
that are both white space or both not and have the same image under `fold`. -/
def foldedLetter (fold : Char → Char) (c d : Char) : Prop :=
  sameLetter c d ∨ (isSpace c = isSpace d ∧ fold c = fold d)

/-- Two strings that differ only in leading and trailing white space and in
the case of letters that `fold` folds together: each is a block of white
space, a core and a block of white space, and the two cores agree rune by
rune up to `foldedLetter fold`. -/
def differInCaseAndOuterSpace (fold : Char → Char) (s t : GoString) : Prop :=
  ∃ l₁ u r₁ l₂ v r₂ : GoString,
    s = l₁ ++ u ++ r₁ ∧ t = l₂ ++ v ++ r₂ ∧
    (∀ c ∈ l₁, isSpace c = true) ∧ (∀ c ∈ r₁, isSpace c = true) ∧
    (∀ c ∈ l₂, isSpace c = true) ∧ (∀ c ∈ r₂, isSpace c = true) ∧
    List.Forall₂ (foldedLetter fold) u v

/-- Two entries of the table `unicode.CaseRanges` of the Go standard library:
U+017F (long s) has the upper case form U+0053 `S` and is its own lower case
form; U+212A (Kelvin sign) has the lower case form U+006B `k` and is its own
upper case form.  The runes without an entry here are left as they are. -/
def CaseRanges.longSKelvin : CaseRanges :=
  ⟨fun c => if c.toNat = 0x212A then 'k' else c, fun c => if c.toNat = 0x017F then 'S' else c⟩

/-- A row with at least two fields. -/
def validRow (row : List GoString) : Prop := 2 ≤ row.length

namespace zabftft

/-- The number of correct answers among the answered questions: the pairs of
a row and a typed line, in order, in which the cleaned line is the field 1 of
the row. -/
def correctCount (tbl : CaseRanges) (data : List (List GoString)) (lines : List GoString) : Nat :=
  ((data.zip lines).filter fun p => decide (cleanAnswer tbl p.2 = p.1.getD 1 [])).length

/-- The first `k` questions in the order of the rows, numbered from 1. -/
def prompts (data : List (List GoString)) (k : Nat) : List Output :=
  (List.range k).map fun i => Output.question (i + 1) ((data.getD i []).getD 0 [])

/-- The results after the first, the first two, ... of the typed lines. -/
def results (tbl : CaseRanges) (data : List (List GoString)) (lines : List GoString) :
    List gameResult :=
  (List.range lines.length).map fun j =>
    { total := j + 1, correct := correctCount tbl data (lines.take (j + 1)), err := false }

/-- The goroutine `askQuestions` after the lines `lines` were answered, the
moment it reaches the head of its loop again. -/
def answered (tbl : CaseRanges) (data : List (List GoString)) (lines : List GoString) :
    AskState :=
  { i := lines.length, totalQuestions := lines.length,
    correctAnswers := correctCount tbl data lines, pc := Pc.returned,
    printed := prompts data lines.length, sent := results tbl data lines }

/-- The status of `runQuiz` that goes with the state of the goroutine when no
read failed: a panic of the goroutine ends the program. -/
def statusOf (pc : Pc) : Status :=
  match pc with
  | Pc.panicked p => Status.Stopped (Reason.Crashed p)
  | _ => Status.Running

/-- The successful results among the values sent on `gc`. -/
def successes (st : AskState) : List gameResult := st.sent.filter fun r => !r.err

/-- A result and the next one: the total grows by one, the number of correct
answers by zero or one and stays within the total, the total within `n`. -/
def nextResult (n : Nat) (r r' : gameResult) : Prop :=
  r'.total = r.total + 1 ∧ r.correct ≤ r'.correct ∧ r'.correct ≤ r.correct + 1 ∧
    r'.correct ≤ r'.total ∧ r'.total ≤ n

end zabftft

namespace Soumil

/-- The number of correct answers among the answered problems: the pairs of a
problem and a scanned answer, in order, in which the stored answer is the
normalized scanned answer. -/
def correctCount (tbl : CaseRanges) (problems : List problem) (answers : List GoString) : Nat :=
  ((problems.zip answers).filter fun p => decide (p.1.a = ToUpper tbl (TrimSpace p.2))).length

/-- The first `k` prompts in the order of the problems, numbered from 1. -/
def prompts (problems : List problem) (k : Nat) : List Output :=
  (List.range k).map fun i => Output.problem (i + 1) (problems.getD i ⟨[], []⟩).q

/-- The problem loop after the answers `answers` were received, the moment it
reaches the head of the loop again. -/
def answered (tbl : CaseRanges) (problems : List problem) (answers : List GoString) : Loop :=
  { index := answers.length, correct := correctCount tbl problems answers,
    status := Status.Running, out := prompts problems answers.length }

end Soumil

/-- The last element of `a :: l`. -/
def lastFrom {α : Type} (a : α) : List α → α
  | [] => a
  | b :: l => lastFrom b l

namespace zabftft

/-- The invariant of the goroutine `askQuestions` at the head of its loop:
the successful results sent so far form a chain from the zero tally that ends
in the two counters, and the counters stay within the range index. -/
def tallyInv (n : Nat) (st : AskState) : Prop :=
  List.Chain (nextResult n) { total := 0, correct := 0, err := false } (successes st) ∧
  lastFrom { total := 0, correct := 0, err := false } (successes st) =
    { total := st.totalQuestions, correct := st.correctAnswers, err := false } ∧
  st.correctAnswers ≤ st.totalQuestions ∧ st.totalQuestions = st.i ∧ st.i ≤ n

end zabftft

/-! # Theorems -/

/-! ## Lemmas on the string functions -/

theorem trimSpace_append_space (l u r : GoString) (hl : ∀ c ∈ l, isSpace c = true)
    (hr : ∀ c ∈ r, isSpace c = true) : TrimSpace (l ++ u ++ r) = TrimSpace u := by
  have hrev : ∀ c ∈ r.reverse, isSpace c = true := fun c hc => hr c (List.mem_reverse.mp hc)
  unfold TrimSpace
  rw [List.append_assoc, List.dropWhile_append_of_pos hl, List.dropWhile_append]
  split
  · rename_i h
    have hu : List.dropWhile isSpace u = [] := by simpa using h
    rw [hu]
    have : List.dropWhile isSpace r = [] := List.dropWhile_eq_nil_iff.mpr (by simpa using hr)
    rw [this]
  · rw [List.reverse_append, List.dropWhile_append_of_pos hrev]

theorem sameLetter_isSpace {c d : Char} (h : sameLetter c d) : isSpace c = isSpace d := by
  rcases h with rfl | ⟨h1, h2, h3⟩ | ⟨h1, h2, h3⟩
  · rfl
  · have e1 : 'A'.toNat = 65 := rfl
    have e2 : 'Z'.toNat = 90 := rfl
    rw [e1] at h1; rw [e2] at h2
    have hc : isSpace c = false := by
      simp only [isSpace, Bool.or_eq_false_iff, Bool.and_eq_false_iff, beq_eq_false_iff_ne,
        decide_eq_false_iff_not]
      omega
    have hd : isSpace d = false := by
      simp only [isSpace, Bool.or_eq_false_iff, Bool.and_eq_false_iff, beq_eq_false_iff_ne,
        decide_eq_false_iff_not]
      omega
    rw [hc, hd]
  · have e1 : 'A'.toNat = 65 := rfl
    have e2 : 'Z'.toNat = 90 := rfl
    rw [e1] at h1; rw [e2] at h2
    have hc : isSpace c = false := by
      simp only [isSpace, Bool.or_eq_false_iff, Bool.and_eq_false_iff, beq_eq_false_iff_ne,
        decide_eq_false_iff_not]
      omega
    have hd : isSpace d = false := by
      simp only [isSpace, Bool.or_eq_false_iff, Bool.and_eq_false_iff, beq_eq_false_iff_ne,
        decide_eq_false_iff_not]
      omega
    rw [hc, hd]

theorem sameLetter_toLower (tbl : CaseRanges) {c d : Char} (h : sameLetter c d) :
    unicodeToLower tbl c = unicodeToLower tbl d := by
  have e1 : 'A'.toNat = 65 := rfl
  have e2 : 'Z'.toNat = 90 := rfl
  have e3 : 'a'.toNat = 97 := rfl
  rcases h with rfl | ⟨h1, h2, h3⟩ | ⟨h1, h2, h3⟩
  · rfl
  · rw [e1] at h1; rw [e2] at h2
    have hc : unicodeToLower tbl c = Char.ofNat (c.toNat + 32) := by
      simp only [unicodeToLower, e1, e2, e3]
      rw [if_pos (by omega), if_pos ⟨h1, h2⟩]
    have hd : unicodeToLower tbl d = d := by
      simp only [unicodeToLower, e1, e2, e3]
      rw [if_pos (by omega), if_neg (by omega)]
    rw [hc, hd, ← h3, Char.ofNat_toNat]
  · rw [e1] at h1; rw [e2] at h2
    have hd : unicodeToLower tbl d = Char.ofNat (d.toNat + 32) := by
      simp only [unicodeToLower, e1, e2, e3]
      rw [if_pos (by omega), if_pos ⟨h1, h2⟩]
    have hc : unicodeToLower tbl c = c := by
      simp only [unicodeToLower, e1, e2, e3]
      rw [if_pos (by omega), if_neg (by omega)]
    rw [hc, hd, ← h3, Char.ofNat_toNat]

theorem sameLetter_toUpper (tbl : CaseRanges) {c d : Char} (h : sameLetter c d) :
    unicodeToUpper tbl c = unicodeToUpper tbl d := by
  have e1 : 'A'.toNat = 65 := rfl
  have e2 : 'Z'.toNat = 90 := rfl
  have e3 : 'a'.toNat = 97 := rfl
  have e4 : 'z'.toNat = 122 := rfl
  rcases h with rfl | ⟨h1, h2, h3⟩ | ⟨h1, h2, h3⟩
  · rfl
  · rw [e1] at h1; rw [e2] at h2
    have hc : unicodeToUpper tbl c = c := by
      simp only [unicodeToUpper, e1, e3, e4]
      rw [if_pos (by omega), if_neg (by omega)]
    have hd : unicodeToUpper tbl d = Char.ofNat (d.toNat - 32) := by
      simp only [unicodeToUpper, e1, e3, e4]
      rw [if_pos (by omega), if_pos (by omega)]
    rw [hc, hd, h3, Nat.add_sub_cancel, Char.ofNat_toNat]
  · rw [e1] at h1; rw [e2] at h2
    have hd : unicodeToUpper tbl d = d := by
      simp only [unicodeToUpper, e1, e3, e4]
      rw [if_pos (by omega), if_neg (by omega)]
    have hc : unicodeToUpper tbl c = Char.ofNat (c.toNat - 32) := by
      simp only [unicodeToUpper, e1, e3, e4]
      rw [if_pos (by omega), if_pos (by omega)]
    rw [hc, hd, h3, Nat.add_sub_cancel, Char.ofNat_toNat]

theorem foldedLetter_isSpace {fold : Char → Char} {c d : Char} (h : foldedLetter fold c d) :
    isSpace c = isSpace d := by
  rcases h with h | ⟨h, -⟩
  · exact sameLetter_isSpace h
  · exact h

theorem foldedLetter_toLower (tbl : CaseRanges) {c d : Char}
    (h : foldedLetter (unicodeToLower tbl) c d) : unicodeToLower tbl c = unicodeToLower tbl d := by
  rcases h with h | ⟨-, h⟩
  · exact sameLetter_toLower tbl h
  · exact h

theorem foldedLetter_toUpper (tbl : CaseRanges) {c d : Char}
    (h : foldedLetter (unicodeToUpper tbl) c d) : unicodeToUpper tbl c = unicodeToUpper tbl d := by
  rcases h with h | ⟨-, h⟩
  · exact sameLetter_toUpper tbl h
  · exact h

theorem forall₂_map_eq {R : Char → Char → Prop} {f : Char → Char} {u v : GoString}
    (hf : ∀ c d, R c d → f c = f d) (h : List.Forall₂ R u v) :
    u.map f = v.map f := by
  induction h with
  | nil => rfl
  | cons hcd _ ih => rw [List.map_cons, List.map_cons, hf _ _ hcd, ih]

theorem forall₂_dropWhile_isSpace {R : Char → Char → Prop} {u v : GoString}
    (hR : ∀ c d, R c d → isSpace c = isSpace d) (h : List.Forall₂ R u v) :
    List.Forall₂ R (u.dropWhile isSpace) (v.dropWhile isSpace) := by
  induction h with
  | nil => exact List.Forall₂.nil
  | @cons c d u v hcd huv ih =>
    rw [List.dropWhile_cons, List.dropWhile_cons, ← hR c d hcd]
    split
    · exact ih
    · exact List.Forall₂.cons hcd huv

theorem forall₂_trimSpace {R : Char → Char → Prop} {u v : GoString}
    (hR : ∀ c d, R c d → isSpace c = isSpace d) (h : List.Forall₂ R u v) :
    List.Forall₂ R (TrimSpace u) (TrimSpace v) := by
  unfold TrimSpace
  exact List.forall₂_reverse_iff.mpr
    (forall₂_dropWhile_isSpace hR
      (List.forall₂_reverse_iff.mpr (forall₂_dropWhile_isSpace hR h)))

theorem toLower_space (tbl : CaseRanges)
    (htbl : ∀ c, isSpace c = true → isSpace (tbl.lower c) = true) (c : Char)
    (hc : isSpace c = true) : isSpace (unicodeToLower tbl c) = true := by
  unfold unicodeToLower
  split
  · split
    · rename_i h1 h2
      have e1 : 'A'.toNat = 65 := rfl
      have e2 : 'Z'.toNat = 90 := rfl
      rw [e1, e2] at h2
      exfalso
      simp only [isSpace, Bool.or_eq_true, Bool.and_eq_true, beq_iff_eq, decide_eq_true_eq] at hc
      omega
    · exact hc
  · exact htbl c hc

/-! ## Lemmas on `parseLines` -/

theorem parseLines_of_valid (lines : List (List GoString)) (h : ∀ row ∈ lines, validRow row) :
    Soumil.parseLines lines =
      Except.ok (lines.map fun row => { q := row.getD 0 [], a := TrimSpace (row.getD 1 []) }) := by
  induction lines with
  | nil => rfl
  | cons row lines ih =>
    have hrow : 2 ≤ row.length := h row (List.mem_cons_self _ _)
    have ih := ih fun r hr => h r (List.mem_cons_of_mem _ hr)
    match row, hrow with
    | q :: a :: rest, _ =>
      simp [Soumil.parseLines, ih]

/-! ## The answer normalizers -/

/-- C2, as stated, fails on letters outside the basic Latin alphabet: with
the entries of Go's case table for U+017F and U+212A, `S` is the upper case
form of the long s, yet `cleanAnswer` tells the two apart; `k` is the lower
case form of the Kelvin sign, yet the `TrimSpace`-then-`ToUpper` normalization
of Soumil-Bhattacharya tells the two apart. -/
theorem long_s_and_kelvin_told_apart :
    (unicodeToUpper CaseRanges.longSKelvin '\u017F' = 'S' ∧
      zabftft.cleanAnswer CaseRanges.longSKelvin "\u017F".toList ≠
        zabftft.cleanAnswer CaseRanges.longSKelvin "S".toList) ∧
    (unicodeToLower CaseRanges.longSKelvin '\u212A' = 'k' ∧
      ToUpper CaseRanges.longSKelvin (TrimSpace "\u212A".toList) ≠
        ToUpper CaseRanges.longSKelvin (TrimSpace "k".toList)) := by
  decide

/-- C2, amended: `cleanAnswer` gives the same result on `"Paris\n"`,
`"  paris "` and `"PARIS"`; it gives the same result on any two strings that
differ only in leading and trailing white space and in the case of letters
that `unicode.ToLower` folds together (always the basic Latin letters),
provided the case table of the standard library maps white space to white
space; and the `TrimSpace`-then-`ToUpper` normalization of the typed answer in
Soumil-Bhattacharya gives the same result on any two strings that differ only
in leading and trailing white space and in the case of letters that
`unicode.ToUpper` folds together (always the basic Latin letters). -/
theorem cleanAnswer_case_space_insensitive (tbl : CaseRanges) :
    (zabftft.cleanAnswer tbl "Paris\n".toList = zabftft.cleanAnswer tbl "  paris ".toList ∧
      zabftft.cleanAnswer tbl "  paris ".toList = zabftft.cleanAnswer tbl "PARIS".toList) ∧
    ((∀ c, isSpace c = true → isSpace (tbl.lower c) = true) →
      ∀ s t, differInCaseAndOuterSpace (unicodeToLower tbl) s t →
        zabftft.cleanAnswer tbl s = zabftft.cleanAnswer tbl t) ∧
    (∀ s t, differInCaseAndOuterSpace (unicodeToUpper tbl) s t →
      ToUpper tbl (TrimSpace s) = ToUpper tbl (TrimSpace t)) := by
  refine ⟨⟨rfl, rfl⟩, ?_, ?_⟩
  · rintro htbl s t ⟨l₁, u, r₁, l₂, v, r₂, rfl, rfl, hl₁, hr₁, hl₂, hr₂, huv⟩
    have hmap : ∀ l : GoString, (∀ c ∈ l, isSpace c = true) →
        ∀ c ∈ l.map (unicodeToLower tbl), isSpace c = true := by
      intro l hl c hc
      obtain ⟨b, hb, rfl⟩ := List.mem_map.mp hc
      exact toLower_space tbl htbl b (hl b hb)
    unfold zabftft.cleanAnswer ToLower
    rw [List.map_append, List.map_append, List.map_append, List.map_append,
      trimSpace_append_space _ _ _ (hmap l₁ hl₁) (hmap r₁ hr₁),
      trimSpace_append_space _ _ _ (hmap l₂ hl₂) (hmap r₂ hr₂),
      forall₂_map_eq (fun _ _ h => foldedLetter_toLower tbl h) huv]
  · rintro s t ⟨l₁, u, r₁, l₂, v, r₂, rfl, rfl, hl₁, hr₁, hl₂, hr₂, huv⟩
    rw [trimSpace_append_space _ _ _ hl₁ hr₁, trimSpace_append_space _ _ _ hl₂ hr₂]
    exact forall₂_map_eq (fun _ _ h => foldedLetter_toUpper tbl h)
      (forall₂_trimSpace (fun _ _ h => foldedLetter_isSpace h) huv)

/-- C2, instance: `"Paris\n"` and `"  paris "` differ only in the case of a
basic Latin letter and in outer white space, and `cleanAnswer` agrees on them. -/
theorem cleanAnswer_case_space_insensitive_witness :
    (∀ c, isSpace c = true → isSpace (CaseRanges.trivial.lower c) = true) ∧
    differInCaseAndOuterSpace (unicodeToLower CaseRanges.trivial)
      "Paris\n".toList "  paris ".toList ∧
    zabftft.cleanAnswer CaseRanges.trivial "Paris\n".toList =
      zabftft.cleanAnswer CaseRanges.trivial "  paris ".toList :=
  have hd : differInCaseAndOuterSpace (unicodeToLower CaseRanges.trivial)
      "Paris\n".toList "  paris ".toList :=
    ⟨[], "Paris".toList, "\n".toList, "  ".toList, "paris".toList, " ".toList, rfl, rfl,
      by decide, by decide, by decide, by decide,
      List.Forall₂.cons (Or.inl (Or.inr (Or.inl ⟨by decide, by decide, by decide⟩)))
        (List.Forall₂.cons (Or.inl (Or.inl rfl)) (List.Forall₂.cons (Or.inl (Or.inl rfl))
          (List.Forall₂.cons (Or.inl (Or.inl rfl))
            (List.Forall₂.cons (Or.inl (Or.inl rfl)) List.Forall₂.nil))))⟩
  ⟨fun _ h => h, hd,
    (cleanAnswer_case_space_insensitive CaseRanges.trivial).2.1 (fun _ h => h) _ _ hd⟩

/-! ## `validateFlags` -/

/-- C6, as stated, fails: `problems.csv.bak` does not have the extension
`.csv` and the limit 3 is positive, yet `validateFlags` returns `nil`. -/
theorem validateFlags_accepts_csv_bak :
    ¬ hasCsvExtension "problems.csv.bak".toList ∧ ¬ ((3 : Int) ≤ 0) ∧
    zabftft.validateFlags "problems.csv.bak".toList 3 false = none := by
  unfold hasCsvExtension
  decide

/-- C6, amended: `validateFlags` returns an error exactly when the file name
does not contain `.csv` anywhere or the time limit is at most zero, whatever
the shuffle flag is; a name with the extension `.csv` contains `.csv`. -/
theorem validateFlags_error_iff (fileName : GoString) (timeLimit : Int) (shuffle : Bool) :
    (zabftft.validateFlags fileName timeLimit shuffle ≠ none ↔
      (¬ ".csv".toList <:+: fileName ∨ timeLimit ≤ 0)) ∧
    (∀ shuffle', zabftft.validateFlags fileName timeLimit shuffle' =
      zabftft.validateFlags fileName timeLimit shuffle) ∧
    (hasCsvExtension fileName → ".csv".toList <:+: fileName) := by
  refine ⟨?_, fun _ => rfl, fun h => h.isInfix⟩
  unfold zabftft.validateFlags Contains
  generalize ".csv".toList = ext
  by_cases h1 : ext <:+: fileName <;> by_cases h2 : timeLimit ≤ 0 <;> simp [h1, h2]

/-- C6, instance: `problems.csv` has the extension `.csv`, hence contains `.csv`. -/
theorem validateFlags_error_iff_witness :
    hasCsvExtension "problems.csv".toList ∧ ".csv".toList <:+: "problems.csv".toList :=
  ⟨by unfold hasCsvExtension; decide,
    (validateFlags_error_iff "problems.csv".toList 3 false).2.2 (by unfold hasCsvExtension; decide)⟩

/-! ## `parseLines` -/

/-- C7: on rows that all have at least two fields `parseLines` returns a
slice of the same length whose element `i` has the field 0 of row `i` as its
question and the field 1 of row `i`, trimmed, as its answer. -/
theorem parseLines_preserves_rows (lines : List (List GoString))
    (h : ∀ row ∈ lines, validRow row) :
    ∃ res : List Soumil.problem,
      Soumil.parseLines lines = Except.ok res ∧ res.length = lines.length ∧
      ∀ (i : Nat) (row : List GoString), lines[i]? = some row →
        ∃ p, res[i]? = some p ∧ row[0]? = some p.q ∧ (row[1]?).map TrimSpace = some p.a := by
  refine ⟨_, parseLines_of_valid lines h, by simp, ?_⟩
  intro i row hi
  have hrow : 2 ≤ row.length := h row (List.getElem?_mem hi)
  refine ⟨_, by rw [List.getElem?_map, hi]; rfl, ?_, ?_⟩
  · match row, hrow with
    | q :: a :: rest, _ => rfl
  · match row, hrow with
    | q :: a :: rest, _ => simp

/-- C7, instance: two rows, the second with white space around its answer. -/
theorem parseLines_preserves_rows_witness :
    (∀ row ∈ [["2+2".toList, "4".toList], ["capital".toList, " Paris ".toList]], validRow row) ∧
    ∃ res : List Soumil.problem,
      Soumil.parseLines [["2+2".toList, "4".toList], ["capital".toList, " Paris ".toList]]
        = Except.ok res ∧ res.length = 2 ∧
      ∀ (i : Nat) (row : List GoString),
        [["2+2".toList, "4".toList], ["capital".toList, " Paris ".toList]][i]? = some row →
        ∃ p, res[i]? = some p ∧ row[0]? = some p.q ∧ (row[1]?).map TrimSpace = some p.a :=
  ⟨by simp [validRow], parseLines_preserves_rows _ (by simp [validRow])⟩

/-! ## The scenario of the specification -/

/-- C1, the code at the scenario: for the questions `("2+2","4")` and
`("capital of france","Paris")` and the typed answers `4` and `paris`, `runQuiz`
reports 2 questions and 1 correct answer, and the problem loop of
Soumil-Bhattacharya reports 1 out of 2: the typed answer is folded to one case
and the stored answer is not. -/
theorem scenario_tally_one_correct :
    (zabftft.runQuiz CaseRanges.trivial
        [["2+2".toList, "4".toList], ["capital of france".toList, "Paris".toList]]
        [zabftft.Event.line "4\n".toList, zabftft.Event.line "paris\n".toList,
          zabftft.Event.deadline]).report = [zabftft.Output.tally 2 1] ∧
    Soumil.parseLines [["2+2".toList, "4".toList], ["capital of france".toList, "Paris".toList]]
      = Except.ok [⟨"2+2".toList, "4".toList⟩, ⟨"capital of france".toList, "Paris".toList⟩] ∧
    (Soumil.problemLoop CaseRanges.trivial
        [⟨"2+2".toList, "4".toList⟩, ⟨"capital of france".toList, "Paris".toList⟩]
        [Soumil.Event.answer "4".toList, Soumil.Event.answer "paris".toList]).out =
      [Soumil.Output.problem 1 "2+2".toList, Soumil.Output.problem 2 "capital of france".toList,
        Soumil.Output.score 1 2] := by
  refine ⟨by decide, rfl, by decide⟩

/-! ## Lemmas on the quiz engines -/

theorem zip_append_singleton {α β : Type} (xs : List α) (ys : List β) (x : α) (y : β)
    (h : xs[ys.length]? = some x) : xs.zip (ys ++ [y]) = xs.zip ys ++ [(x, y)] := by
  induction ys generalizing xs with
  | nil =>
    cases xs with
    | nil => simp at h
    | cons a xs => simp at h; simp [h]
  | cons b ys ih =>
    cases xs with
    | nil => simp at h
    | cons a xs =>
      simp only [List.length_cons, List.getElem?_cons_succ] at h
      simp [ih xs h]

namespace zabftft

theorem askHead_pc (data : List (List GoString)) (st : AskState) (pc : Pc) :
    askHead data { st with pc := pc } = askHead data st := by
  unfold askHead
  cases h : data[st.i]? with
  | none => simp [h]
  | some question => simp only [h]

theorem correctCount_snoc (tbl : CaseRanges) (data : List (List GoString))
    (lines : List GoString) (s : GoString) (row : List GoString)
    (h : data[lines.length]? = some row) :
    correctCount tbl data (lines ++ [s]) =
      if cleanAnswer tbl s = row.getD 1 [] then correctCount tbl data lines + 1
      else correctCount tbl data lines := by
  unfold correctCount
  rw [zip_append_singleton _ _ _ _ h, List.filter_append, List.length_append]
  by_cases hc : cleanAnswer tbl s = row.getD 1 [] <;>
    simp [hc, -List.getD_eq_getElem?_getD]

theorem prompts_succ (data : List (List GoString)) (k : Nat) :
    prompts data (k + 1) =
      prompts data k ++ [Output.question (k + 1) ((data.getD k []).getD 0 [])] := by
  simp [prompts, List.range_succ]

theorem results_snoc (tbl : CaseRanges) (data : List (List GoString)) (lines : List GoString)
    (s : GoString) :
    results tbl data (lines ++ [s]) =
      results tbl data lines ++
        [{ total := lines.length + 1, correct := correctCount tbl data (lines ++ [s]),
           err := false }] := by
  unfold results
  rw [List.length_append, List.length_singleton, List.range_succ, List.map_append]
  congr 1
  · apply List.map_congr_left
    intro j hj
    have hj : j + 1 ≤ lines.length := by simpa using hj
    rw [List.take_append_of_le_length hj]
  · rw [List.map_singleton, List.take_of_length_le (by simp)]

/-- One answered line, from the head of the loop to the head of the loop. -/
theorem askRead_answered (tbl : CaseRanges) (data : List (List GoString))
    (lines : List GoString) (s : GoString) (row : List GoString)
    (h : data[lines.length]? = some row) (hrow : validRow row) :
    askRead tbl data (askHead data (answered tbl data lines)) (some s) =
      (askHead data (answered tbl data (lines ++ [s])),
        some { total := lines.length + 1, correct := correctCount tbl data (lines ++ [s]),
               err := false }) := by
  match row, hrow with
  | q :: a :: rest, _ =>
    have hget : data.getD lines.length [] = q :: a :: rest := by
      simp [List.getD_eq_getElem?_getD, h]
    have hhead : askHead data (answered tbl data lines) =
        { answered tbl data lines with
          pc := Pc.awaitAnswer a,
          printed := prompts data lines.length ++ [Output.question (lines.length + 1) q] } := by
      simp [askHead, answered, h]
    rw [hhead]
    simp only [askRead]
    rw [← askHead_pc data (answered tbl data (lines ++ [s])) (Pc.awaitAnswer a)]
    have hc := correctCount_snoc tbl data lines s _ h
    simp only [List.getD_cons_succ, List.getD_cons_zero] at hc
    simp only [answered, List.length_append, List.length_singleton, prompts_succ, results_snoc,
      hget, List.getD_cons_zero, hc]

theorem validRow_of_mem_take (data : List (List GoString)) (k : Nat) (row : List GoString)
    (hvalid : ∀ r ∈ data.take (k + 1), validRow r) (h : data[k]? = some row) : validRow row := by
  apply hvalid
  apply List.getElem?_mem (n := k)
  rw [List.getElem?_take_of_lt (Nat.lt_succ_self k)]
  exact h

theorem valid_take_of_succ (data : List (List GoString)) (k : Nat)
    (hvalid : ∀ r ∈ data.take (k + 1), validRow r) : ∀ r ∈ data.take k, validRow r := by
  intro r hr
  apply hvalid
  exact (List.take_subset_take_left data (Nat.le_succ k)) hr

theorem answered_nil (tbl : CaseRanges) (data : List (List GoString)) :
    answered tbl data [] =
      { i := 0, totalQuestions := 0, correctAnswers := 0, pc := Pc.returned,
        printed := [], sent := [] } := by
  simp [answered, correctCount, prompts, results]

/-- The goroutine after `lines.length` answered lines, when the rows of these
questions are valid. -/
theorem askQuestions_lines (tbl : CaseRanges) (data : List (List GoString))
    (lines : List GoString) (hlen : lines.length ≤ data.length)
    (hvalid : ∀ r ∈ data.take lines.length, validRow r) :
    askQuestions tbl data (lines.map some) = askHead data (answered tbl data lines) := by
  induction lines using List.reverseRecOn with
  | nil => rw [answered_nil]; rfl
  | append_singleton lines s ih =>
    rw [List.length_append, List.length_singleton] at hlen hvalid
    obtain ⟨row, hrow⟩ : ∃ row, data[lines.length]? = some row :=
      ⟨data[lines.length], List.getElem?_eq_getElem (by omega)⟩
    have ih := ih (by omega) (valid_take_of_succ data _ hvalid)
    unfold askQuestions at ih ⊢
    rw [List.map_append, List.foldl_append, ih]
    simp only [List.map_cons, List.map_nil, List.foldl_cons, List.foldl_nil]
    rw [askRead_answered tbl data lines s row hrow (validRow_of_mem_take data _ row hvalid hrow)]

/-- The state of `runQuiz` after `lines.length` answered lines, when the rows
of these questions are valid. -/
theorem runQuiz_lines (tbl : CaseRanges) (data : List (List GoString))
    (lines : List GoString) (hlen : lines.length ≤ data.length)
    (hvalid : ∀ r ∈ data.take lines.length, validRow r) :
    runQuiz tbl data (lines.map Event.line) =
      { ask := askHead data (answered tbl data lines),
        result := { total := lines.length, correct := correctCount tbl data lines, err := false },
        status := statusOf (askHead data (answered tbl data lines)).pc,
        report := [] } := by
  induction lines using List.reverseRecOn with
  | nil =>
    have hc : correctCount tbl data [] = 0 := by simp [correctCount]
    rw [answered_nil, hc]
    rfl
  | append_singleton lines s ih =>
    rw [List.length_append, List.length_singleton] at hlen hvalid
    obtain ⟨row, hrow⟩ : ∃ row, data[lines.length]? = some row :=
      ⟨data[lines.length], List.getElem?_eq_getElem (by omega)⟩
    have hrowv := validRow_of_mem_take data _ row hvalid hrow
    have ih := ih (by omega) (valid_take_of_succ data _ hvalid)
    have hrun : statusOf (askHead data (answered tbl data lines)).pc = Status.Running := by
      match row, hrowv with
      | q :: a :: rest, _ => simp [askHead, answered, hrow, statusOf]
    unfold runQuiz at ih ⊢
    rw [List.map_append, List.foldl_append, ih, hrun]
    simp only [List.map_cons, List.map_nil, List.foldl_cons, List.foldl_nil, runQuizStep,
      askRead_answered tbl data lines s row hrow hrowv, List.length_append,
      List.length_singleton]
    simp only [Bool.false_eq_true, if_false]
    rfl

/-- A stopped quiz stays as it is. -/
theorem runQuizStep_stopped (tbl : CaseRanges) (data : List (List GoString)) (q : Quiz)
    (r : Reason) (h : q.status = Status.Stopped r) (trace : List Event) :
    trace.foldl (runQuizStep tbl data) q = q := by
  induction trace with
  | nil => rfl
  | cons ev trace ih =>
    have : runQuizStep tbl data q ev = q := by
      unfold runQuizStep
      rw [h]
    rw [List.foldl_cons, this, ih]

end zabftft

namespace Soumil

theorem loop_correctCount_snoc (tbl : CaseRanges) (problems : List problem)
    (answers : List GoString) (s : GoString) (p : problem)
    (h : problems[answers.length]? = some p) :
    correctCount tbl problems (answers ++ [s]) =
      if p.a = ToUpper tbl (TrimSpace s) then correctCount tbl problems answers + 1
      else correctCount tbl problems answers := by
  unfold correctCount
  rw [zip_append_singleton _ _ _ _ h, List.filter_append, List.length_append]
  by_cases hc : p.a = ToUpper tbl (TrimSpace s) <;> simp [hc]

theorem loop_prompts_succ (problems : List problem) (k : Nat) :
    prompts problems (k + 1) =
      prompts problems k ++ [Output.problem (k + 1) (problems.getD k ⟨[], []⟩).q] := by
  simp [prompts, List.range_succ]

theorem loop_answered_nil (tbl : CaseRanges) (problems : List problem) :
    answered tbl problems [] =
      { index := 0, correct := 0, status := Status.Running, out := [] } := by
  simp [answered, correctCount, prompts]

/-- The problem loop after `answers.length` answers. -/
theorem problemLoop_answers (tbl : CaseRanges) (problems : List problem)
    (answers : List GoString) (hlen : answers.length ≤ problems.length) :
    problemLoop tbl problems (answers.map Event.answer) =
      loopHead problems (answered tbl problems answers) := by
  induction answers using List.reverseRecOn with
  | nil => rw [loop_answered_nil]; rfl
  | append_singleton answers s ih =>
    rw [List.length_append, List.length_singleton] at hlen
    obtain ⟨p, hp⟩ : ∃ p, problems[answers.length]? = some p :=
      ⟨problems[answers.length], List.getElem?_eq_getElem (by omega)⟩
    have ih := ih (by omega)
    have hget : problems.getD answers.length ⟨[], []⟩ = p := by
      simp [List.getD_eq_getElem?_getD, hp]
    unfold problemLoop at ih ⊢
    rw [List.map_append, List.foldl_append, ih]
    have hhead : loopHead problems (answered tbl problems answers) =
        { answered tbl problems answers with
          out := prompts problems answers.length ++ [Output.problem (answers.length + 1) p.q] } := by
      simp [loopHead, answered, hp]
    rw [hhead]
    simp only [List.map_cons, List.map_nil, List.foldl_cons, List.foldl_nil, loopStep, answered,
      hp, List.length_append, List.length_singleton, loop_prompts_succ, hget,
      loop_correctCount_snoc tbl problems answers s p hp]

/-- A stopped quiz stays as it is. -/
theorem loopStep_stopped (tbl : CaseRanges) (problems : List problem) (st : Loop)
    (r : Reason) (h : st.status = Status.Stopped r) (trace : List Event) :
    trace.foldl (loopStep tbl problems) st = st := by
  induction trace with
  | nil => rfl
  | cons ev trace ih =>
    have : loopStep tbl problems st ev = st := by
      unfold loopStep
      rw [h]
    rw [List.foldl_cons, this, ih]

end Soumil

theorem lastFrom_snoc {α : Type} (a b : α) (l : List α) : lastFrom a (l ++ [b]) = b := by
  induction l generalizing a with
  | nil => rfl
  | cons c l ih => exact ih c

theorem chain_snoc {α : Type} {R : α → α → Prop} {a b : α} {l : List α}
    (h : List.Chain R a l) (hb : R (lastFrom a l) b) : List.Chain R a (l ++ [b]) := by
  induction l generalizing a with
  | nil => exact List.Chain.cons hb List.Chain.nil
  | cons c l ih =>
    cases h with
    | cons hac hcl => exact List.Chain.cons hac (ih hcl hb)

namespace zabftft

theorem chain_nextResult_index (n : Nat) (a : gameResult) (l : List gameResult)
    (h : List.Chain (nextResult n) a l) (j : Nat) (r : gameResult) (hr : l[j]? = some r) :
    r.total = a.total + j + 1 ∧ r.correct ≤ r.total ∧ r.total ≤ n := by
  induction l generalizing a j with
  | nil => simp at hr
  | cons c l ih =>
    cases h with
    | cons hac hcl =>
      cases j with
      | zero =>
        simp at hr
        subst hr
        exact ⟨hac.1, hac.2.2.2.1, hac.2.2.2.2⟩
      | succ j =>
        simp only [List.getElem?_cons_succ] at hr
        have := ih c hcl j hr
        refine ⟨?_, this.2.1, this.2.2⟩
        rw [this.1, hac.1]
        omega

theorem askHead_fields (data : List (List GoString)) (st : AskState) :
    (askHead data st).i = st.i ∧ (askHead data st).totalQuestions = st.totalQuestions ∧
    (askHead data st).correctAnswers = st.correctAnswers ∧ (askHead data st).sent = st.sent ∧
    (∀ ca, (askHead data st).pc = Pc.awaitAnswer ca → st.i < data.length) := by
  unfold askHead
  cases h : data[st.i]? with
  | none => simp
  | some question =>
    have hlt : st.i < data.length := by
      by_contra hge
      rw [List.getElem?_eq_none (by omega)] at h
      exact Option.noConfusion h
    simp only []
    split <;> simp [hlt]

theorem tallyInv_askHead (data : List (List GoString)) (st : AskState)
    (h : tallyInv data.length st) : tallyInv data.length (askHead data st) := by
  obtain ⟨hi, ht, hc, hs, -⟩ := askHead_fields data st
  unfold tallyInv successes at h ⊢
  rw [hi, ht, hc, hs]
  exact h

theorem tallyInv_askRead (tbl : CaseRanges) (data : List (List GoString)) (st : AskState)
    (read : Option GoString) (h : tallyInv data.length st)
    (hpc : ∀ ca, st.pc = Pc.awaitAnswer ca → st.i < data.length) :
    tallyInv data.length (askRead tbl data st read).1 ∧
    ∀ ca, (askRead tbl data st read).1.pc = Pc.awaitAnswer ca →
      (askRead tbl data st read).1.i < data.length := by
  unfold askRead
  cases hst : st.pc with
  | returned => exact ⟨h, fun ca hca => hpc ca hca⟩
  | panicked p => exact ⟨h, fun ca hca => hpc ca hca⟩
  | awaitAnswer ca =>
    cases read with
    | none =>
      refine ⟨?_, fun ca hca => by simp at hca⟩
      unfold tallyInv successes at h ⊢
      simpa [List.filter_append] using h
    | some answer =>
      have hlt := hpc ca hst
      obtain ⟨h1, h2, h3, h4, h5⟩ := h
      simp only
      refine ⟨tallyInv_askHead data _ ?_, fun ca hca => ?_⟩
      · unfold tallyInv successes at *
        simp only [List.filter_append, List.filter_cons, List.filter_nil, Bool.not_false,
          if_true]
        refine ⟨chain_snoc h1 ?_, lastFrom_snoc _ _ _, ?_, ?_, ?_⟩
        · rw [h2]
          unfold nextResult
          dsimp only
          split <;> omega
        · split <;> omega
        · omega
        · omega
      · have := (askHead_fields data _).2.2.2.2 ca hca
        rw [(askHead_fields data _).1]
        exact this

theorem askQuestions_inv (tbl : CaseRanges) (data : List (List GoString))
    (reads : List (Option GoString)) :
    tallyInv data.length (askQuestions tbl data reads) ∧
    ∀ ca, (askQuestions tbl data reads).pc = Pc.awaitAnswer ca →
      (askQuestions tbl data reads).i < data.length := by
  induction reads using List.reverseRecOn with
  | nil =>
    unfold askQuestions askStart
    simp only [List.foldl_nil]
    refine ⟨tallyInv_askHead data _ ?_, fun ca hca => ?_⟩
    · exact ⟨List.Chain.nil, rfl, Nat.le_refl _, rfl, Nat.zero_le _⟩
    · have := (askHead_fields data _).2.2.2.2 ca hca
      rw [(askHead_fields data _).1]
      exact this
  | append_singleton reads read ih =>
    have : askQuestions tbl data (reads ++ [read]) =
        (askRead tbl data (askQuestions tbl data reads) read).1 := by
      simp [askQuestions, List.foldl_append]
    rw [this]
    exact tallyInv_askRead tbl data _ read ih.1 ih.2

/-- C10: whatever the rows and the results of the reads are, the successful
results that `askQuestions` sends on the channel form a chain from the zero
tally in which the total grows by exactly one, the number of correct answers
grows by zero or one, and `correct ≤ total ≤ len(data)`; the result number `j`
(from 1) has `total = j`. -/
theorem askQuestions_tally (tbl : CaseRanges) (data : List (List GoString))
    (reads : List (Option GoString)) :
    List.Chain (nextResult data.length) { total := 0, correct := 0, err := false }
      (successes (askQuestions tbl data reads)) ∧
    ∀ (j : Nat) (r : gameResult), (successes (askQuestions tbl data reads))[j]? = some r →
      r.total = j + 1 ∧ r.correct ≤ r.total ∧ r.total ≤ data.length := by
  have h := (askQuestions_inv tbl data reads).1.1
  refine ⟨h, fun j r hr => ?_⟩
  have := chain_nextResult_index _ _ _ h j r hr
  simpa using this

/-- C10, instance: the second successful result of the scenario is the tally
of two questions and one correct answer. -/
theorem askQuestions_tally_witness :
    (successes (askQuestions CaseRanges.trivial
        [["2+2".toList, "4".toList], ["capital of france".toList, "Paris".toList]]
        [some "4\n".toList, some "paris\n".toList]))[1]? =
      some { total := 2, correct := 1, err := false } ∧
    ((2 : Nat) = 1 + 1 ∧ (1 : Nat) ≤ 2 ∧ (2 : Nat) ≤ 2) :=
  ⟨by decide,
    (askQuestions_tally CaseRanges.trivial
      [["2+2".toList, "4".toList], ["capital of france".toList, "Paris".toList]]
      [some "4\n".toList, some "paris\n".toList]).2 1 { total := 2, correct := 1, err := false }
      (by decide)⟩

theorem askHead_end (data : List (List GoString)) (st : AskState) (h : data.length ≤ st.i) :
    askHead data st = { st with pc := Pc.returned } := by
  unfold askHead
  rw [List.getElem?_eq_none h]

theorem statusOf_askHead_valid (data : List (List GoString)) (st : AskState)
    (hvalid : ∀ row ∈ data, validRow row) : statusOf (askHead data st).pc = Status.Running := by
  unfold askHead
  cases h : data[st.i]? with
  | none => rfl
  | some question =>
    have hq : validRow question := hvalid question (List.getElem?_mem h)
    match question, hq with
    | q :: a :: rest, _ => simp [statusOf]

end zabftft

namespace Soumil

theorem loopHead_end (problems : List problem) (st : Loop) (h : problems.length ≤ st.index) :
    loopHead problems st =
      { st with status := Status.Stopped Reason.Exhausted,
                out := st.out ++ [Output.score st.correct problems.length] } := by
  unfold loopHead
  rw [List.getElem?_eq_none h]

theorem loopHead_next (problems : List problem) (st : Loop) (p : problem)
    (h : problems[st.index]? = some p) :
    loopHead problems st = { st with out := st.out ++ [Output.problem (st.index + 1) p.q] } := by
  unfold loopHead
  rw [h]

end Soumil

/-! ## Malformed rows -/

/-- C5, the code at a file of one column: on the single row with the one
field `only`, and on the two rows `only` and `two`, `parseLines` ends in the
panic `index out of range [1] with length 1`, not in a reported error;
`runQuiz` ends in the same panic at the first row, before any question is
presented and without a tally. -/
theorem short_row_unhandled_panic :
    (Soumil.parseLines [["only".toList]] = Except.error (Panic.indexOutOfRange 1 1) ∧
      Soumil.parseLines [["only".toList], ["two".toList]] =
        Except.error (Panic.indexOutOfRange 1 1)) ∧
    ((zabftft.runQuiz CaseRanges.trivial [["only".toList]] []).status =
        zabftft.Status.Stopped (zabftft.Reason.Crashed (Panic.indexOutOfRange 1 1)) ∧
      (zabftft.runQuiz CaseRanges.trivial [["only".toList]] []).ask.printed = [] ∧
      (zabftft.runQuiz CaseRanges.trivial [["only".toList]] []).report = []) ∧
    ((zabftft.runQuiz CaseRanges.trivial [["only".toList], ["two".toList]] []).status =
        zabftft.Status.Stopped (zabftft.Reason.Crashed (Panic.indexOutOfRange 1 1)) ∧
      (zabftft.runQuiz CaseRanges.trivial [["only".toList], ["two".toList]] []).ask.printed = [] ∧
      (zabftft.runQuiz CaseRanges.trivial [["only".toList], ["two".toList]] []).report = []) := by
  refine ⟨⟨rfl, rfl⟩, ⟨by decide, by decide, by decide⟩, ⟨by decide, by decide, by decide⟩⟩

/-! ## All questions answered -/

/-- C8, as stated, fails for `runQuiz`: after the only question was answered
the quiz is still running and nothing was reported. -/
theorem runQuiz_keeps_waiting :
    (∀ row ∈ [["2+2".toList, "4".toList]], validRow row) ∧
    (zabftft.runQuiz CaseRanges.trivial [["2+2".toList, "4".toList]]
        [zabftft.Event.line "4\n".toList]).status = zabftft.Status.Running ∧
    (zabftft.runQuiz CaseRanges.trivial [["2+2".toList, "4".toList]]
        [zabftft.Event.line "4\n".toList]).status ≠
      zabftft.Status.Stopped zabftft.Reason.Exhausted ∧
    (zabftft.runQuiz CaseRanges.trivial [["2+2".toList, "4".toList]]
        [zabftft.Event.line "4\n".toList]).report = [] := by
  refine ⟨by simp [validRow], by decide, by decide, by decide⟩

/-- C8, amended: when all `N` rows are valid and `N` answers arrive before the
deadline, both programs ask the questions in the order of the set, numbered
from 1 to `N`.  The problem loop of Soumil-Bhattacharya then stops at once
(Exhausted) and prints the score out of `N`.  `runQuiz` holds the tally with
`total = N`, its goroutine has returned, but it stays running and prints
nothing until the timer fires; it then prints the tally with `total = N`. -/
theorem all_questions_answered (tbl : CaseRanges) (data : List (List GoString))
    (lines : List GoString) (hvalid : ∀ row ∈ data, validRow row)
    (hlines : lines.length = data.length) :
    ((zabftft.runQuiz tbl data (lines.map zabftft.Event.line)).ask.printed =
        zabftft.prompts data data.length ∧
      (zabftft.runQuiz tbl data (lines.map zabftft.Event.line)).ask.pc = zabftft.Pc.returned ∧
      (zabftft.runQuiz tbl data (lines.map zabftft.Event.line)).result =
        { total := data.length, correct := zabftft.correctCount tbl data lines, err := false } ∧
      (zabftft.runQuiz tbl data (lines.map zabftft.Event.line)).status =
        zabftft.Status.Running ∧
      (zabftft.runQuiz tbl data (lines.map zabftft.Event.line)).report = [] ∧
      (zabftft.runQuiz tbl data (lines.map zabftft.Event.line ++ [zabftft.Event.deadline])).status
        = zabftft.Status.Stopped zabftft.Reason.TimeExpired ∧
      (zabftft.runQuiz tbl data (lines.map zabftft.Event.line ++ [zabftft.Event.deadline])).report
        = [zabftft.Output.tally data.length (zabftft.correctCount tbl data lines)]) ∧
    ∃ problems : List Soumil.problem,
      Soumil.parseLines data = Except.ok problems ∧ problems.length = data.length ∧
      (Soumil.problemLoop tbl problems (lines.map Soumil.Event.answer)).status =
        Soumil.Status.Stopped Soumil.Reason.Exhausted ∧
      (Soumil.problemLoop tbl problems (lines.map Soumil.Event.answer)).out =
        Soumil.prompts problems problems.length ++
          [Soumil.Output.score (Soumil.correctCount tbl problems lines) problems.length] := by
  constructor
  · have hrun : zabftft.runQuiz tbl data (lines.map zabftft.Event.line ++ [zabftft.Event.deadline])
        = zabftft.runQuizStep tbl data (zabftft.runQuiz tbl data (lines.map zabftft.Event.line))
            zabftft.Event.deadline := by
      simp [zabftft.runQuiz, List.foldl_append]
    rw [hrun, zabftft.runQuiz_lines tbl data lines (by omega) (fun r hr => hvalid r (List.mem_of_mem_take hr)),
      zabftft.askHead_end data _ (by show data.length ≤ lines.length; omega)]
    refine ⟨?_, rfl, ?_, rfl, rfl, rfl, ?_⟩
    · show zabftft.prompts data lines.length = _
      rw [hlines]
    · rw [hlines]
    · show [zabftft.Output.tally lines.length _] = _
      rw [hlines]
  · refine ⟨_, parseLines_of_valid data hvalid, by simp, ?_⟩
    generalize hp : (data.map fun row =>
      ({ q := row.getD 0 [], a := TrimSpace (row.getD 1 []) } : Soumil.problem)) = problems
    have hlen : lines.length = problems.length := by rw [← hp, List.length_map, hlines]
    rw [Soumil.problemLoop_answers tbl problems lines (by omega),
      Soumil.loopHead_end problems _ (by show problems.length ≤ lines.length; omega)]
    refine ⟨rfl, ?_⟩
    show Soumil.prompts problems lines.length ++ _ = _
    rw [hlen]
    rfl

/-- C8, instance: one valid row and one answer. -/
theorem all_questions_answered_witness :
    (∀ row ∈ [["2+2".toList, "4".toList]], validRow row) ∧
    ["4\n".toList].length = [["2+2".toList, "4".toList]].length ∧
    (zabftft.runQuiz CaseRanges.trivial [["2+2".toList, "4".toList]]
      (["4\n".toList].map zabftft.Event.line)).result = { total := 1, correct := 1, err := false } :=
  ⟨by simp [validRow], rfl,
    (all_questions_answered CaseRanges.trivial [["2+2".toList, "4".toList]] ["4\n".toList]
      (by simp [validRow]) rfl).1.2.2.1⟩

/-! ## The deadline -/

/-- C9, as stated, fails for Soumil-Bhattacharya: when the timer fires before
the first of two problems is answered the program reports 0 out of 2, the
size of the problem set, not the number 0 of recorded answers. -/
theorem score_out_of_all_problems :
    (Soumil.problemLoop CaseRanges.trivial
        [⟨"2+2".toList, "4".toList⟩, ⟨"capital of france".toList, "Paris".toList⟩]
        [Soumil.Event.deadline]).out =
      [Soumil.Output.problem 1 "2+2".toList, Soumil.Output.score 0 2] := by
  decide

/-- C9, amended: when the timer fires after exactly `k` answers were recorded,
whatever follows the timer in the trace changes nothing.  `runQuiz` stops
(TimeExpired) and reports `total = k` and the number of correct answers among
these `k`.  Soumil-Bhattacharya reports the number of correct answers among
these `k` out of the size of the problem set, and has stopped with
TimeExpired when `k` is less than that size, with Exhausted otherwise. -/
theorem deadline_is_terminal (tbl : CaseRanges) (data : List (List GoString))
    (lines : List GoString) (post : List zabftft.Event)
    (problems : List Soumil.problem) (answers : List GoString) (postS : List Soumil.Event)
    (hvalid : ∀ row ∈ data, validRow row) (hlines : lines.length ≤ data.length)
    (hanswers : answers.length ≤ problems.length) :
    ((zabftft.runQuiz tbl data
        (lines.map zabftft.Event.line ++ zabftft.Event.deadline :: post)).status =
        zabftft.Status.Stopped zabftft.Reason.TimeExpired ∧
      (zabftft.runQuiz tbl data
        (lines.map zabftft.Event.line ++ zabftft.Event.deadline :: post)).report =
        [zabftft.Output.tally lines.length (zabftft.correctCount tbl data lines)]) ∧
    ((Soumil.problemLoop tbl problems
        (answers.map Soumil.Event.answer ++ Soumil.Event.deadline :: postS)).status =
        Soumil.Status.Stopped
          (if answers.length < problems.length then Soumil.Reason.TimeExpired
           else Soumil.Reason.Exhausted) ∧
      (Soumil.problemLoop tbl problems
        (answers.map Soumil.Event.answer ++ Soumil.Event.deadline :: postS)).out =
        Soumil.prompts problems (min (answers.length + 1) problems.length) ++
          [Soumil.Output.score (Soumil.correctCount tbl problems answers) problems.length]) := by
  constructor
  · have hrun : zabftft.runQuiz tbl data
          (lines.map zabftft.Event.line ++ zabftft.Event.deadline :: post) =
        post.foldl (zabftft.runQuizStep tbl data)
          (zabftft.runQuizStep tbl data (zabftft.runQuiz tbl data (lines.map zabftft.Event.line))
            zabftft.Event.deadline) := by
      simp [zabftft.runQuiz, List.foldl_append]
    have hstep : zabftft.runQuizStep tbl data
          (zabftft.runQuiz tbl data (lines.map zabftft.Event.line)) zabftft.Event.deadline =
        { ask := zabftft.askHead data (zabftft.answered tbl data lines),
          result := { total := lines.length, correct := zabftft.correctCount tbl data lines,
                      err := false },
          status := zabftft.Status.Stopped zabftft.Reason.TimeExpired,
          report := [zabftft.Output.tally lines.length (zabftft.correctCount tbl data lines)] } := by
      rw [zabftft.runQuiz_lines tbl data lines hlines
        (fun r hr => hvalid r (List.mem_of_mem_take hr)),
        zabftft.statusOf_askHead_valid data _ hvalid]
      rfl
    rw [hrun, hstep, zabftft.runQuizStep_stopped tbl data _ zabftft.Reason.TimeExpired rfl post]
    exact ⟨rfl, rfl⟩
  · have hrun : Soumil.problemLoop tbl problems
          (answers.map Soumil.Event.answer ++ Soumil.Event.deadline :: postS) =
        postS.foldl (Soumil.loopStep tbl problems)
          (Soumil.loopStep tbl problems
            (Soumil.problemLoop tbl problems (answers.map Soumil.Event.answer))
            Soumil.Event.deadline) := by
      simp [Soumil.problemLoop, List.foldl_append]
    rw [hrun, Soumil.problemLoop_answers tbl problems answers hanswers]
    by_cases hlt : answers.length < problems.length
    · obtain ⟨p, hp⟩ : ∃ p, problems[answers.length]? = some p :=
        ⟨problems[answers.length], List.getElem?_eq_getElem hlt⟩
      have hget : problems.getD answers.length ⟨[], []⟩ = p := by
        simp [List.getD_eq_getElem?_getD, hp]
      have hstep : Soumil.loopStep tbl problems
            (Soumil.loopHead problems (Soumil.answered tbl problems answers))
            Soumil.Event.deadline =
          { index := answers.length, correct := Soumil.correctCount tbl problems answers,
            status := Soumil.Status.Stopped Soumil.Reason.TimeExpired,
            out := Soumil.prompts problems (answers.length + 1) ++
              [Soumil.Output.score (Soumil.correctCount tbl problems answers) problems.length] } := by
        rw [Soumil.loopHead_next problems _ p hp]
        simp [Soumil.loopStep, Soumil.answered, hp, Soumil.loop_prompts_succ, hget]
      rw [hstep, Soumil.loopStep_stopped tbl problems _ Soumil.Reason.TimeExpired rfl postS,
        if_pos hlt, Nat.min_eq_left (by omega)]
      exact ⟨rfl, rfl⟩
    · have heq : answers.length = problems.length := by omega
      have hhead := Soumil.loopHead_end problems (Soumil.answered tbl problems answers)
        (by show problems.length ≤ answers.length; omega)
      have hstep : Soumil.loopStep tbl problems
            (Soumil.loopHead problems (Soumil.answered tbl problems answers))
            Soumil.Event.deadline =
          Soumil.loopHead problems (Soumil.answered tbl problems answers) := by
        rw [hhead]
        rfl
      rw [hstep, Soumil.loopStep_stopped tbl problems _ Soumil.Reason.Exhausted
        (by rw [hhead]) postS, hhead, if_neg hlt, Nat.min_eq_right (by omega)]
      refine ⟨rfl, ?_⟩
      show Soumil.prompts problems answers.length ++ _ = _
      rw [heq]
      rfl

/-- C9, instance: the timer fires after the first of two answers; a second
answer follows it. -/
theorem deadline_is_terminal_witness :
    (∀ row ∈ [["2+2".toList, "4".toList], ["3+3".toList, "6".toList]], validRow row) ∧
    ["4\n".toList].length ≤ [["2+2".toList, "4".toList], ["3+3".toList, "6".toList]].length ∧
    ["4".toList].length ≤
      [(⟨"2+2".toList, "4".toList⟩ : Soumil.problem), ⟨"3+3".toList, "6".toList⟩].length ∧
    (zabftft.runQuiz CaseRanges.trivial [["2+2".toList, "4".toList], ["3+3".toList, "6".toList]]
        (["4\n".toList].map zabftft.Event.line ++
          zabftft.Event.deadline :: [zabftft.Event.line "6\n".toList])).report =
      [zabftft.Output.tally 1 1] :=
  ⟨by simp [validRow], by decide, by decide,
    (deadline_is_terminal CaseRanges.trivial
      [["2+2".toList, "4".toList], ["3+3".toList, "6".toList]] ["4\n".toList]
      [zabftft.Event.line "6\n".toList]
      [⟨"2+2".toList, "4".toList⟩, ⟨"3+3".toList, "6".toList⟩] ["4".toList]
      [Soumil.Event.answer "6".toList]
      (by simp [validRow]) (by decide) (by decide)).1.2⟩

/-! ## Lemmas on the exchange of two elements -/

theorem swapAt_eq {α : Type} (data : List α) (i j : Nat) (hi : i < data.length)
    (hj : j < data.length) : swapAt data i j = some ((data.set i data[j]).set j data[i]) := by
  unfold swapAt
  rw [List.getElem?_eq_getElem hi, List.getElem?_eq_getElem hj]

theorem swapAt_bounds {α : Type} {data out : List α} {i j : Nat}
    (h : swapAt data i j = some out) : i < data.length ∧ j < data.length := by
  unfold swapAt at h
  constructor
  · by_contra hi
    rw [List.getElem?_eq_none (by omega)] at h
    exact Option.noConfusion h
  · by_contra hj
    rw [List.getElem?_eq_none (n := j) (by omega)] at h
    cases hd : data[i]? <;> rw [hd] at h <;> exact Option.noConfusion h

theorem swapAt_length {α : Type} {data out : List α} {i j : Nat}
    (h : swapAt data i j = some out) : out.length = data.length := by
  obtain ⟨hi, hj⟩ := swapAt_bounds h
  rw [swapAt_eq data i j hi hj] at h
  cases h
  simp

theorem swapAt_getElem? {α : Type} {data out : List α} {i j : Nat}
    (h : swapAt data i j = some out) (k : Nat) :
    out[k]? = if k = j then data[i]? else if k = i then data[j]? else data[k]? := by
  obtain ⟨hi, hj⟩ := swapAt_bounds h
  rw [swapAt_eq data i j hi hj] at h
  cases h
  rw [List.getElem?_set, List.getElem?_set, List.length_set]
  by_cases hkj : k = j
  · subst hkj
    simp [hi, hj]
  · by_cases hki : k = i
    · subst hki
      have : ¬ j = k := fun e => hkj e.symm
      simp [this, hkj, hi, hj]
    · have h1 : ¬ j = k := fun e => hkj e.symm
      have h2 : ¬ i = k := fun e => hki e.symm
      simp [h1, h2, hkj, hki]

theorem swapAt_involutive {α : Type} {data out : List α} {i j : Nat}
    (h : swapAt data i j = some out) : swapAt out i j = some data := by
  obtain ⟨hi, hj⟩ := swapAt_bounds h
  have hlen := swapAt_length h
  obtain ⟨back, hback⟩ : ∃ back, swapAt out i j = some back :=
    ⟨_, swapAt_eq out i j (by omega) (by omega)⟩
  rw [hback]
  congr 1
  apply List.ext_getElem?
  intro k
  rw [swapAt_getElem? hback k, swapAt_getElem? h i, swapAt_getElem? h j, swapAt_getElem? h k]
  by_cases hkj : k = j
  · subst hkj
    by_cases hik : i = k
    · subst hik; simp
    · simp [hik]
  · by_cases hki : k = i
    · subst hki; simp [hkj]
    · simp [hkj, hki]

theorem swapAt_perm {α : Type} {data out : List α} {i j : Nat}
    (h : swapAt data i j = some out) : out.Perm data := by
  classical
  obtain ⟨hi, hj⟩ := swapAt_bounds h
  rw [swapAt_eq data i j hi hj] at h
  cases h
  rw [List.perm_iff_count]
  intro x
  rw [List.count_set _ _ _ _ (by simpa using hj), List.count_set _ _ _ _ hi]
  have hj2 : j < (data.set i data[j]).length := by simpa using hj
  have hget : (data.set i data[j])[j] = data[j] := by
    rw [List.getElem_set]
    split
    · rfl
    · rfl
  rw [hget]
  have hmem : (data[i] == x) = true → 1 ≤ List.count x data := by
    intro hx
    have : data[i] = x := by simpa using hx
    rw [List.one_le_count_iff, ← this]
    exact List.getElem_mem _
  rcases Bool.eq_false_or_eq_true (data[i] == x) with h1 | h1
  · have := hmem h1
    rcases Bool.eq_false_or_eq_true (data[j] == x) with h2 | h2
    · rw [h1, h2]
      simp only [if_true]
      omega
    · rw [h1, h2]
      simp only [if_true, Bool.false_eq_true, if_false]
      omega
  · rcases Bool.eq_false_or_eq_true (data[j] == x) with h2 | h2
    · rw [h1, h2]
      simp only [if_true, Bool.false_eq_true, if_false]
      omega
    · rw [h1, h2]
      simp only [Bool.false_eq_true, if_false]
      omega

namespace Soumil

/-! ## Lemmas on `Shuffle` -/

/-- The last iteration split off. -/
theorem shuffleFrom_succ {α : Type} (draw : Nat → Nat) (k i : Nat) (data : List α) :
    shuffleFrom draw (k + 1) i data =
      (shuffleFrom draw k i data).bind fun d => swapAt d (i + k) (draw (i + k)) := by
  induction k generalizing i data with
  | zero =>
    simp only [shuffleFrom, Nat.add_zero, Option.some_bind]
    cases swapAt data i (draw i) <;> rfl
  | succ k ih =>
    rw [shuffleFrom]
    cases h : swapAt data i (draw i) with
    | none => simp [shuffleFrom, h]
    | some d =>
      rw [Option.some_bind, ih]
      conv_rhs => rw [shuffleFrom, h, Option.some_bind]
      have : i + 1 + k = i + (k + 1) := by omega
      rw [this]

/-- The first `n` iterations depend on the first `n` draws only. -/
theorem shuffleFrom_congr {α : Type} (d d' : Nat → Nat) (n : Nat) (data : List α)
    (h : ∀ m, m < n → d m = d' m) : shuffleFrom d n 0 data = shuffleFrom d' n 0 data := by
  induction n with
  | zero => rfl
  | succ n ih =>
    rw [shuffleFrom_succ, shuffleFrom_succ, ih fun m hm => h m (by omega), Nat.zero_add,
      h n (Nat.lt_succ_self n)]

/-- After the first `n` iterations with draws in range the slice is a
permutation of the input that agrees with it from the index `n` on. -/
theorem shuffleFrom_steps {α : Type} (d : Nat → Nat) (n : Nat) (data : List α)
    (hn : n ≤ data.length) (hd : ∀ m, m < n → d m ≤ m) :
    ∃ out, shuffleFrom d n 0 data = some out ∧ out.Perm data ∧
      ∀ m, n ≤ m → out[m]? = data[m]? := by
  induction n with
  | zero => exact ⟨data, rfl, List.Perm.refl _, fun _ _ => rfl⟩
  | succ n ih =>
    obtain ⟨out, hout, hperm, hrest⟩ := ih (by omega) fun m hm => hd m (by omega)
    have hlen : out.length = data.length := hperm.length_eq
    have hdn : d n ≤ n := hd n (Nat.lt_succ_self n)
    obtain ⟨out', hout'⟩ : ∃ out', swapAt out n (d n) = some out' :=
      ⟨_, swapAt_eq out n (d n) (by omega) (by omega)⟩
    refine ⟨out', ?_, (swapAt_perm hout').trans hperm, fun m hm => ?_⟩
    · rw [shuffleFrom_succ, hout, Option.some_bind, Nat.zero_add, hout']
    · rw [swapAt_getElem? hout' m, if_neg (by omega), if_neg (by omega)]
      exact hrest m (by omega)

theorem Shuffle_perm {α : Type} (draw : Nat → Nat) (data : List α)
    (hdraw : ∀ i, i < data.length → draw i ≤ i) :
    ∃ out, Shuffle draw data = some out ∧ out.Perm data := by
  obtain ⟨out, hout, hperm, -⟩ := shuffleFrom_steps draw data.length data (Nat.le_refl _) hdraw
  exact ⟨out, hout, hperm⟩

end Soumil

namespace zabftft

theorem shuffleQuestions_perm {α : Type} (swaps : List (Nat × Nat)) (fileContent : List α)
    (hswaps : ∀ p ∈ swaps, p.1 < fileContent.length ∧ p.2 < fileContent.length) :
    ∃ out, shuffleQuestions swaps fileContent = some out ∧ out.Perm fileContent := by
  induction swaps generalizing fileContent with
  | nil => exact ⟨fileContent, rfl, List.Perm.refl _⟩
  | cons p swaps ih =>
    obtain ⟨h1, h2⟩ := hswaps p (List.mem_cons_self _ _)
    obtain ⟨mid, hmid⟩ : ∃ mid, swapAt fileContent p.1 p.2 = some mid :=
      ⟨_, swapAt_eq fileContent p.1 p.2 h1 h2⟩
    have hlen := swapAt_length hmid
    obtain ⟨out, hout, hperm⟩ := ih mid fun q hq => by
      rw [hlen]
      exact hswaps q (List.mem_cons_of_mem _ hq)
    refine ⟨out, ?_, hperm.trans (swapAt_perm hmid)⟩
    unfold shuffleQuestions at hout ⊢
    rw [List.foldlM_cons, hmid]
    exact hout

end zabftft

/-! ## The shuffles -/

/-- C3: for draws `r_i ≤ i`, `Shuffle` returns a slice of the same length that
is a permutation of its input; `shuffleQuestions` returns a permutation of its
input for every sequence of exchanges of two indices of the slice. -/
theorem shuffle_is_permutation {α : Type} (data : List α) :
    (∀ draw : Nat → Nat, (∀ i, i < data.length → draw i ≤ i) →
      ∃ out, Soumil.Shuffle draw data = some out ∧ out.length = data.length ∧ out.Perm data) ∧
    (∀ swaps : List (Nat × Nat),
      (∀ p ∈ swaps, p.1 < data.length ∧ p.2 < data.length) →
      ∃ out, zabftft.shuffleQuestions swaps data = some out ∧ out.length = data.length ∧
        out.Perm data) := by
  constructor
  · intro draw hdraw
    obtain ⟨out, hout, hperm⟩ := Soumil.Shuffle_perm draw data hdraw
    exact ⟨out, hout, hperm.length_eq, hperm⟩
  · intro swaps hswaps
    obtain ⟨out, hout, hperm⟩ := zabftft.shuffleQuestions_perm swaps data hswaps
    exact ⟨out, hout, hperm.length_eq, hperm⟩

/-- C3, instance: three elements, the draws 0, 0, 1 and the exchanges (2, 0), (1, 1). -/
theorem shuffle_is_permutation_witness :
    (∀ i, i < [1, 2, 3].length → (fun i => [0, 0, 1].getD i 0) i ≤ i) ∧
    (∀ p ∈ [((2 : Nat), (0 : Nat)), (1, 1)], p.1 < [1, 2, 3].length ∧ p.2 < [1, 2, 3].length) ∧
    (∃ out, Soumil.Shuffle (fun i => [0, 0, 1].getD i 0) [1, 2, 3] = some out ∧
      out.length = [1, 2, 3].length ∧ out.Perm [1, 2, 3]) ∧
    (∃ out, zabftft.shuffleQuestions [(2, 0), (1, 1)] [1, 2, 3] = some out ∧
      out.length = [1, 2, 3].length ∧ out.Perm [1, 2, 3]) :=
  ⟨by decide, by decide,
    (shuffle_is_permutation [1, 2, 3]).1 (fun i => [0, 0, 1].getD i 0) (by decide),
    (shuffle_is_permutation [1, 2, 3]).2 [(2, 0), (1, 1)] (by decide)⟩

namespace Soumil

theorem nodup_index_unique {α : Type} {l : List α} (hl : l.Nodup) {i j : Nat} {x : α}
    (hi : l[i]? = some x) (hj : l[j]? = some x) : i = j := by
  obtain ⟨hi', -⟩ := List.getElem?_eq_some.mp hi
  exact List.getElem?_inj hi' hl (hi.trans hj.symm)

/-- Two sequences of draws in range that give the same slice after `n`
iterations agree on the first `n` draws. -/
theorem shuffleFrom_injective {α : Type} (data : List α) (hnodup : data.Nodup)
    (d d' : Nat → Nat) (n : Nat) (hn : n ≤ data.length)
    (hd : ∀ m, m < n → d m ≤ m) (hd' : ∀ m, m < n → d' m ≤ m)
    (heq : shuffleFrom d n 0 data = shuffleFrom d' n 0 data) : ∀ m, m < n → d m = d' m := by
  induction n with
  | zero => intro m hm; omega
  | succ n ih =>
    obtain ⟨out, hout, hperm, hrest⟩ :=
      shuffleFrom_steps d n data (by omega) fun m hm => hd m (by omega)
    obtain ⟨out', hout', hperm', hrest'⟩ :=
      shuffleFrom_steps d' n data (by omega) fun m hm => hd' m (by omega)
    have hdn : d n ≤ n := hd n (Nat.lt_succ_self n)
    have hdn' : d' n ≤ n := hd' n (Nat.lt_succ_self n)
    obtain ⟨fin, hfin⟩ : ∃ fin, swapAt out n (d n) = some fin :=
      ⟨_, swapAt_eq out n (d n) (by rw [hperm.length_eq]; omega) (by rw [hperm.length_eq]; omega)⟩
    rw [shuffleFrom_succ, shuffleFrom_succ, hout, hout', Option.some_bind, Option.some_bind,
      Nat.zero_add, hfin] at heq
    have hfin' : swapAt out' n (d' n) = some fin := heq.symm
    obtain ⟨x, hx⟩ : ∃ x, data[n]? = some x := ⟨data[n], List.getElem?_eq_getElem (by omega)⟩
    have h1 : fin[d n]? = some x := by
      rw [swapAt_getElem? hfin (d n), if_pos rfl, hrest n (Nat.le_refl n), hx]
    have h2 : fin[d' n]? = some x := by
      rw [swapAt_getElem? hfin' (d' n), if_pos rfl, hrest' n (Nat.le_refl n), hx]
    have hfnodup : fin.Nodup := ((swapAt_perm hfin).trans hperm).nodup_iff.mpr hnodup
    have hlast : d n = d' n := nodup_index_unique hfnodup h1 h2
    have hback : swapAt fin n (d n) = some out := swapAt_involutive hfin
    have hback' : swapAt fin n (d n) = some out' := by
      rw [hlast]
      exact swapAt_involutive hfin'
    have hsame : out = out' := Option.some.inj (hback.symm.trans hback')
    have hprev := ih (by omega) (fun m hm => hd m (by omega)) (fun m hm => hd' m (by omega))
      (by rw [hout, hout', hsame])
    intro m hm
    by_cases hmn : m = n
    · rw [hmn]; exact hlast
    · exact hprev m (by omega)

/-- Every permutation of the input that agrees with it from the index `n` on
is the slice after `n` iterations for some draws in range. -/
theorem shuffleFrom_surjective {α : Type} (data : List α) (hnodup : data.Nodup)
    (n : Nat) (hn : n ≤ data.length) (p : List α) (hp : p.Perm data)
    (hrest : ∀ m, n ≤ m → p[m]? = data[m]?) :
    ∃ d : Nat → Nat, (∀ m, m < n → d m ≤ m) ∧ shuffleFrom d n 0 data = some p := by
  induction n generalizing p with
  | zero =>
    refine ⟨fun _ => 0, fun m hm => by omega, ?_⟩
    have : p = data := List.ext_getElem? fun m => hrest m (Nat.zero_le m)
    rw [this]
    rfl
  | succ n ih =>
    have hlen : p.length = data.length := hp.length_eq
    have hpnodup : p.Nodup := hp.nodup_iff.mpr hnodup
    obtain ⟨x, hx⟩ : ∃ x, data[n]? = some x := ⟨data[n], List.getElem?_eq_getElem (by omega)⟩
    have hxmem : x ∈ p := hp.mem_iff.mpr (List.getElem?_mem hx)
    obtain ⟨r, hr⟩ := List.mem_iff_getElem?.mp hxmem
    have hrn : r ≤ n := by
      by_contra hgt
      have h1 : data[r]? = some x := by rw [← hrest r (by omega)]; exact hr
      have := nodup_index_unique hnodup h1 hx
      omega
    obtain ⟨q, hq⟩ : ∃ q, swapAt p n r = some q :=
      ⟨_, swapAt_eq p n r (by omega) (by omega)⟩
    have hqrest : ∀ m, n ≤ m → q[m]? = data[m]? := by
      intro m hm
      rw [swapAt_getElem? hq m]
      by_cases hmr : m = r
      · have hmn : m = n := by omega
        rw [if_pos hmr, ← hmn, hmr, hr, ← hmr, hmn, hx]
      · rw [if_neg hmr]
        by_cases hmn : m = n
        · rw [if_pos hmn, hr, hmn, hx]
        · rw [if_neg hmn]
          exact hrest m (by omega)
    obtain ⟨d, hd, hdq⟩ := ih (by omega) q ((swapAt_perm hq).trans hp) hqrest
    refine ⟨fun m => if m = n then r else d m, fun m hm => ?_, ?_⟩
    · by_cases hmn : m = n
      · simp only [hmn, if_true]; exact hrn
      · simp only [hmn, if_false]; exact hd m (by omega)
    · rw [shuffleFrom_succ,
        shuffleFrom_congr (fun m => if m = n then r else d m) d n data
          (fun m hm => by simp only [show m ≠ n by omega, if_false]),
        hdq, Option.some_bind, Nat.zero_add]
      simp only [if_true]
      exact swapAt_involutive hq

end Soumil

/-- C4: on a slice of pairwise distinct elements every sequence of draws
`r_i ≤ i` makes `Shuffle` return a permutation of the input, two such
sequences that give the same result are the same sequence, and every
permutation of the input is the result for such a sequence: the draw
sequences correspond one to one to the permutations of the input. -/
theorem Shuffle_bijective {α : Type} (data : List α) (hnodup : data.Nodup) :
    (∀ d : Nat → Nat, (∀ i, i < data.length → d i ≤ i) →
      ∃ out, Soumil.Shuffle d data = some out ∧ out.Perm data) ∧
    (∀ d d' : Nat → Nat, (∀ i, i < data.length → d i ≤ i) → (∀ i, i < data.length → d' i ≤ i) →
      Soumil.Shuffle d data = Soumil.Shuffle d' data → ∀ i, i < data.length → d i = d' i) ∧
    (∀ p : List α, p.Perm data →
      ∃ d : Nat → Nat, (∀ i, i < data.length → d i ≤ i) ∧ Soumil.Shuffle d data = some p) := by
  refine ⟨fun d hd => Soumil.Shuffle_perm d data hd, fun d d' hd hd' heq => ?_, fun p hp => ?_⟩
  · exact Soumil.shuffleFrom_injective data hnodup d d' data.length (Nat.le_refl _) hd hd' heq
  · refine Soumil.shuffleFrom_surjective data hnodup data.length (Nat.le_refl _) p hp
      fun m hm => ?_
    rw [List.getElem?_eq_none hm, List.getElem?_eq_none (by rw [hp.length_eq]; exact hm)]

/-- C4, instance: the permutation `[2, 3, 1]` of `[1, 2, 3]` is the result for
some draws in range. -/
theorem Shuffle_bijective_witness :
    [1, 2, 3].Nodup ∧
    ∃ d : Nat → Nat, (∀ i, i < [1, 2, 3].length → d i ≤ i) ∧
      Soumil.Shuffle d [1, 2, 3] = some [2, 3, 1] :=
  ⟨by decide, (Shuffle_bijective [1, 2, 3] (by decide)).2.2 [2, 3, 1] (by decide)⟩

end Quiz9
